import Mathlib

/-!
Verification of the Task-router-x402 command dispatch engine.

Shallow embedding of `src/services/commandRouter.js`,
`src/services/healthMonitor.js` and `src/services/robotRegistry.js`.
JavaScript strings are modelled as `List Char`, JSON scalar values as `JVal`
(with JS truthiness made explicit), numbers as exact rationals `ℚ`,
fallible network calls as `Except`-valued oracles passed in explicitly,
and the JS heap (where aliasing matters, for the registry) as an explicit
store of records addressed by `Nat`.
-/

namespace TaskRouter

/-! ### String helpers (JS `toLowerCase`, `includes`, `endsWith`, `trim`) -/

/-- JS `String.prototype.toLowerCase`, character-wise. -/
def lowerStr (s : List Char) : List Char := s.map Char.toLower

/-- Helper for substring search: does `needle` occur at the head of `hay`? -/
def headMatch : List Char → List Char → Bool
  | [], _ => true
  | _ :: _, [] => false
  | a :: as, b :: bs => a == b && headMatch as bs

/-- JS `String.prototype.includes needle` on `hay`. -/
def containsSub (needle : List Char) : List Char → Bool
  | [] => needle.isEmpty
  | c :: rest => headMatch needle (c :: rest) || containsSub needle rest

/-- JS `String.prototype.endsWith suffixChars` on `s`. -/
def endsWithChars (s suffixChars : List Char) : Bool :=
  headMatch suffixChars.reverse s.reverse

/-- JS `String.prototype.trim` (whitespace at both ends removed). -/
def trimChars (s : List Char) : List Char :=
  ((s.dropWhile Char.isWhitespace).reverse.dropWhile Char.isWhitespace).reverse

/-! ### JS scalar values and truthiness -/

/-- A JS scalar value as it appears in parsed JSON request/response bodies.
`undef` is JavaScript `undefined` (an absent field), `jnull` is JSON `null`. -/
inductive JVal where
  | undef
  | jnull
  | jbool (b : Bool)
  | jnum (q : ℚ)
  | jstr (s : List Char)
  deriving DecidableEq

/-- JS truthiness: `undefined`, `null`, `false`, `0` and `""` are falsy. -/
def JVal.truthy : JVal → Bool
  | .undef => false
  | .jnull => false
  | .jbool b => b
  | .jnum q => q != 0
  | .jstr s => !s.isEmpty

/-- `v === undefined || v === null` (the JS nullish test). -/
def JVal.isNullish : JVal → Bool
  | .undef => true
  | .jnull => true
  | _ => false

/-! ### `parse402PaymentRequest` (`commandRouter.js` lines 13-40) -/

/-- The fields of `accepts[0]` in an x402 V2 body that the parser reads.
`extraReference` is `accepts[0].extra.reference` (`undef` when `extra` or the
field is missing, as produced by JS optional chaining). -/
structure AcceptEntry where
  extraReference : JVal
  payTo : JVal
  amount : JVal
  asset : JVal
  deriving DecidableEq

/-- A 402 response body as the parser sees it: either not an object at all,
or an object whose relevant fields are projected out. `accepts = none` models
`data.accepts` not being an array; `some l` models an array of entries. -/
inductive Body402 where
  | notObject
  | obj (x402Version : JVal) (accepts : Option (List AcceptEntry))
      (reference receiver payTo amount asset : JVal)
  deriving DecidableEq

/-- The normalised invoice `{reference, receiver, amount, asset}`. -/
structure Invoice where
  reference : JVal
  receiver : JVal
  amount : JVal
  asset : JVal
  deriving DecidableEq

/-- `parse402PaymentRequest` (`commandRouter.js` 13-40): x402 V2 branch first
(`x402Version === 2` and `accepts` a non-empty array, all four values of
`accepts[0]` present), then fall-through to the legacy flat shape
(`reference`, `receiver || payTo`, `amount`, `asset`). -/
def parse402PaymentRequest : Body402 → Option Invoice
  | .notObject => none
  | .obj ver accepts reference receiver payTo amount asset =>
    let v2 : Option Invoice :=
      if ver = .jnum 2 then
        match accepts with
        | some (a :: _) =>
          if a.extraReference.truthy && a.payTo.truthy
              && !a.amount.isNullish && a.asset.truthy then
            some ⟨a.extraReference, a.payTo, a.amount, a.asset⟩
          else none
        | _ => none
      else none
    match v2 with
    | some inv => some inv
    | none =>
      let toAcct := if receiver.truthy then receiver else payTo
      if reference.truthy && toAcct.truthy && !amount.isNullish && asset.truthy then
        some ⟨reference, toAcct, amount, asset⟩
      else none

/-- Spec-side predicate (from the spec's words, for claim C2): the body is a
complete current-shape (V2) payment request — `x402Version: 2`, a non-empty
`accepts` array, and `accepts[0]` carrying `extra.reference`, `payTo`,
`amount`, `asset` all present. -/
def v2Complete : Body402 → Bool
  | .notObject => false
  | .obj ver accepts _ _ _ _ _ =>
    (ver = JVal.jnum 2 : Bool) &&
      match accepts with
      | some (a :: _) =>
        a.extraReference.truthy && a.payTo.truthy
          && !a.amount.isNullish && a.asset.truthy
      | _ => false

/-- Spec-side predicate (from the spec's words, for claim C2): the body is a
complete legacy-shape payment request — top-level `reference`,
`receiver|payTo`, `amount`, `asset` all present. -/
def legacyComplete : Body402 → Bool
  | .notObject => false
  | .obj _ _ reference receiver payTo amount asset =>
    reference.truthy && (receiver.truthy || payTo.truthy)
      && !amount.isNullish && asset.truthy

/-- Outcome of the 402-handling block of `executeMoveDemo`
(`commandRouter.js` 358-381): either the attempt fails terminally at stage
`payment_initiation`, or settlement proceeds with the normalised invoice. -/
inductive Move402Step where
  | failInitiation
  | settle (inv : Invoice)
  deriving DecidableEq

/-- `commandRouter.js` 358-381: parse the 402 body, project the fields via
optional chaining (`invoice?.reference` is `undefined` when the invoice is
`null`), and fail at `payment_initiation` when
`!reference || !receiver || asset === undefined || amount === undefined`. -/
def handle402 (body : Body402) : Move402Step :=
  let invoice := parse402PaymentRequest body
  let reference := invoice.elim JVal.undef Invoice.reference
  let receiver := invoice.elim JVal.undef Invoice.receiver
  let amount := invoice.elim JVal.undef Invoice.amount
  let asset := invoice.elim JVal.undef Invoice.asset
  if !reference.truthy || !receiver.truthy
      || asset = JVal.undef || amount = JVal.undef then
    .failInitiation
  else
    .settle ⟨reference, receiver, amount, asset⟩

/-! ### HTTP handshake machinery (`commandRouter.js` 173-538)

`driveCommand` (lines 212-260) either returns an `HttpResponse` — a normal
response or the error's attached response — or rethrows the transport error
(no response at all).  We model each `driveCommand` call site as an
`Except TransportError HttpResponse` oracle value. -/

/-- An HTTP response as `driveCommand` yields it: a status code and a body. -/
structure HttpResponse where
  status : Nat
  data : Body402
  deriving DecidableEq

/-- A transport error (no response at all).  A generic JS `Error` carries no
`stage` property, hence `stage` is optional and `none` for axios transport
failures; `dance` reads `error.stage || 'transport'`. -/
structure TransportError where
  message : List Char
  stage : Option String
  deriving DecidableEq

/-- An opaque settlement record returned by `x402Service.settleInvoice`. -/
structure Settlement where
  info : List Char
  deriving DecidableEq

/-- The parts of a settlement failure that `executeMoveDemo` reads
(`error.message`, `error.response?.status`, `error.response?.data`). -/
structure SettleErr where
  message : List Char
  httpStatus : Option Nat
  data : Option Body402
  deriving DecidableEq

/-- `commandRouter.js` 175-177: `Number.isInteger(cfg.maxAttempts) ?
Math.max(1, cfg.maxAttempts) : 5`.  `some n` models an integer-valued
configuration entry. -/
def normaliseConfirmMaxAttempts : Option Int → Nat
  | some n => max 1 n.toNat
  | none => 5

/-- `commandRouter.js` 178-180: `Number.isFinite(cfg.delayMs) ?
Math.max(200, cfg.delayMs) : 2000`. -/
def normaliseConfirmDelayMs : Option ℚ → ℚ
  | some d => max 200 d
  | none => 2000

/-- Observable network-facing events of one `executeMoveDemo` run, in order. -/
inductive Event where
  | initialRequest
  | settleCall (inv : Invoice)
  | confirmRequest (attempt : Nat)
  | delayWait (ms : ℚ)
  deriving DecidableEq

/-- State left by the confirmation `while` loop (`commandRouter.js` 402-437):
the value of `attempt` and of `finalResponse`. -/
structure ConfirmOut where
  attempts : Nat
  finalResponse : Option HttpResponse
  deriving DecidableEq

/-- The confirmation `while` loop of `executeMoveDemo`
(`commandRouter.js` 402-437).  `next a` is the outcome of the `driveCommand`
call of attempt `a` (throwing propagates, there is no catch in the loop).
The loop guard is `attempt < confirmMaxAttempts`; each iteration increments
`attempt`, records `finalResponse`, breaks on status 200 or on any non-402
status, and otherwise delays (`delayWait`) and retries while attempts remain.
`fuel` is the number of loop-guard checks still allowed; the top-level entry
`confirmLoop` passes `fuel = maxA`, which makes the fuel-expiry branch
coincide with the loop guard turning false. -/
def confirmLoopGo (maxA : Nat) (delayMs : ℚ)
    (next : Nat → Except TransportError HttpResponse) :
    Nat → Nat → Option HttpResponse →
    List Event × Except TransportError ConfirmOut
  | 0, a, fr => ([], .ok ⟨a, fr⟩)
  | fuel + 1, a, _ =>
    let a' := a + 1
    match next a' with
    | .error e => ([.confirmRequest a'], .error e)
    | .ok r =>
      if r.status = 200 then
        ([.confirmRequest a'], .ok ⟨a', some r⟩)
      else if r.status ≠ 402 then
        ([.confirmRequest a'], .ok ⟨a', some r⟩)
      else if a' < maxA then
        let rest := confirmLoopGo maxA delayMs next fuel a' (some r)
        (Event.confirmRequest a' :: Event.delayWait delayMs :: rest.1, rest.2)
      else
        ([.confirmRequest a'], .ok ⟨a', some r⟩)

/-- Entry point of the confirmation loop: `attempt = 0`, `finalResponse =
null`. -/
def confirmLoop (maxA : Nat) (delayMs : ℚ)
    (next : Nat → Except TransportError HttpResponse) :
    List Event × Except TransportError ConfirmOut :=
  confirmLoopGo maxA delayMs next maxA 0 none

/-- The per-executor result record of `executeMoveDemo`, restricted to the
fields the specification's claims speak about (`status`, `stage`,
`attempts`, `httpStatus`, `response`, `invoice`, `payment`); the `pricing`
and `selection` metadata are computed by `summarisePricing` and the selector,
which are embedded separately.  The JS `invoice` field holds either the raw
402 body (early failures) or the normalised invoice, hence the sum type. -/
structure MoveDemoResult where
  status : String
  stage : String
  attempts : Nat
  httpStatus : Option Nat
  response : Option Body402
  invoice : Option (Body402 ⊕ Invoice)
  payment : Option Settlement
  deriving DecidableEq

/-- `commandRouter.js` 442-479: classify the loop's final state.  A missing
final response (only possible when the loop never ran) and any non-200 final
status yield FAILED at stage `payment_confirmation`; a 200 yields success at
stage `payment_confirmed`.  The last observed response is retained. -/
def finishConfirm (inv : Invoice) (stl : Settlement) (c : ConfirmOut) :
    MoveDemoResult :=
  match c.finalResponse with
  | none =>
    { status := "failed", stage := "payment_confirmation", attempts := c.attempts,
      httpStatus := none, response := none, invoice := some (.inr inv),
      payment := some stl }
  | some r =>
    if r.status = 200 then
      { status := "success", stage := "payment_confirmed", attempts := c.attempts,
        httpStatus := none, response := some r.data, invoice := some (.inr inv),
        payment := some stl }
    else
      { status := "failed", stage := "payment_confirmation", attempts := c.attempts,
        httpStatus := some r.status, response := some r.data,
        invoice := some (.inr inv), payment := some stl }

/-- The three `driveCommand`/settlement call sites of one `executeMoveDemo`
run, as oracles: the unpaid initial request, the `settleInvoice` call, and
the per-attempt confirmation requests. -/
structure RobotOracle where
  initial : Except TransportError HttpResponse
  settlement : Except SettleErr Settlement
  confirm : Nat → Except TransportError HttpResponse

/-- `executeMoveDemo` (`commandRouter.js` 301-480).  A transport error of the
initial request propagates (there is no try/catch around it; the
`if (!initialResponse)` branch at lines 330-341 is unreachable because
`driveCommand` either returns a response or throws).  200 → success at stage
`completed`; other non-402 → failed at stage `initial`; 402 → parse the body
(`handle402`), settle, then run the confirmation loop.  The first component
is the ordered trace of network-facing events. -/
def executeMoveDemo (maxA : Nat) (delayMs : ℚ) (o : RobotOracle) :
    List Event × Except TransportError MoveDemoResult :=
  match o.initial with
  | .error e => ([.initialRequest], .error e)
  | .ok ir =>
    if ir.status = 200 then
      ([.initialRequest],
        .ok { status := "success", stage := "completed", attempts := 0,
              httpStatus := none, response := some ir.data, invoice := none,
              payment := none })
    else if ir.status ≠ 402 then
      ([.initialRequest],
        .ok { status := "failed", stage := "initial", attempts := 0,
              httpStatus := some ir.status, response := some ir.data,
              invoice := some (.inl ir.data), payment := none })
    else
      match handle402 ir.data with
      | .failInitiation =>
        ([.initialRequest],
          .ok { status := "failed", stage := "payment_initiation", attempts := 0,
                httpStatus := some ir.status, response := some ir.data,
                invoice := some (.inl ir.data), payment := none })
      | .settle inv =>
        match o.settlement with
        | .error err =>
          ([.initialRequest, .settleCall inv],
            .ok { status := "failed", stage := "payment_settlement", attempts := 0,
                  httpStatus := err.httpStatus, response := err.data,
                  invoice := some (.inr inv), payment := none })
        | .ok stl =>
          let out := confirmLoop maxA delayMs o.confirm
          (Event.initialRequest :: Event.settleCall inv :: out.1,
            out.2.map (finishConfirm inv stl))

/-! ### Method descriptors and robots -/

/-- An entry of `status.availableMethods`: either a bare string or a detailed
descriptor.  Absent string fields are modelled as `[]` (JS `m.path || ''`).
`pricingAmount` is `parseAmountValue(m.pricing?.amount)` — `none` when the
pricing block is missing or its amount is not numeric. -/
inductive MethodEntry where
  | name (s : List Char)
  | descriptor (path description callable : List Char) (pricingAmount : Option ℚ)
  deriving DecidableEq

/-- An executor as the dispatcher sees it: identity plus its advertised
method list (`robot.status.availableMethods`). -/
structure Robot where
  id : String
  methods : List MethodEntry
  deriving DecidableEq

/-- The per-robot entry `dance` pushes into `responses`
(`commandRouter.js` 491-515), restricted to the fields the claims speak
about. -/
structure DanceEntry where
  robotId : String
  status : String
  stage : String
  attempts : Nat
  deriving DecidableEq

/-- One iteration of the `dance` fan-out loop: run `executeMoveDemo` for the
robot; a thrown transport error is caught and converted into a failed entry
with stage `error.stage || 'transport'` (`commandRouter.js` 498-514). -/
def danceEntryFor (maxA : Nat) (delayMs : ℚ) (r : Robot) (o : RobotOracle) :
    DanceEntry :=
  match (executeMoveDemo maxA delayMs o).2 with
  | .ok out => ⟨r.id, out.status, out.stage, out.attempts⟩
  | .error e => ⟨r.id, "failed", e.stage.getD "transport", 0⟩

/-- The `dance` fan-out loop (`commandRouter.js` 491-515): the selected
robots are processed one after the other, each robot's full
`executeMoveDemo` run (trace included) completing before the next robot is
attempted.  Returns the aggregated entries and the concatenated trace,
each event tagged with the robot it belongs to. -/
def danceLoop (maxA : Nat) (delayMs : ℚ) (oracle : Robot → RobotOracle) :
    List Robot → List DanceEntry × List (String × Event)
  | [] => ([], [])
  | r :: rest =>
    let run := executeMoveDemo maxA delayMs (oracle r)
    let entry :=
      match run.2 with
      | .ok out => DanceEntry.mk r.id out.status out.stage out.attempts
      | .error e => DanceEntry.mk r.id "failed" (e.stage.getD "transport") 0
    let tail := danceLoop maxA delayMs oracle rest
    (entry :: tail.1, run.1.map (fun ev => (r.id, ev)) ++ tail.2)

/-! ### Price-based selection (`commandRouter.js` 54-149, 262-299) -/

/-- `matchIdentifier` (`commandRouter.js` 62-67): false when either side is
falsy (empty), otherwise case-insensitive substring containment. -/
def matchIdentifier (content identifier : List Char) : Bool :=
  !content.isEmpty && !identifier.isEmpty
    && containsSub (lowerStr identifier) (lowerStr content)

/-- `methodMatches` (`commandRouter.js` 69-87): a bare string matches on
itself, a descriptor on its path, description, or ROS callable. -/
def methodMatches (m : MethodEntry) (identifiers : List (List Char)) : Bool :=
  match m with
  | .name s => identifiers.any (fun idtok => matchIdentifier s idtok)
  | .descriptor path description callable _ =>
    identifiers.any (fun idtok =>
      matchIdentifier path idtok || matchIdentifier description idtok
        || matchIdentifier callable idtok)

/-- `findMethodEntry` (`commandRouter.js` 89-92): first matching method. -/
def findMethodEntry (r : Robot) (identifiers : List (List Char)) :
    Option MethodEntry :=
  r.methods.find? (fun m => methodMatches m identifiers)

/-- `getPricingAmount` (`commandRouter.js` 94-99): bare strings have no
price; descriptors expose `parseAmountValue(pricing?.amount)`. -/
def getPricingAmount : Option MethodEntry → Option ℚ
  | none => none
  | some (.name _) => none
  | some (.descriptor _ _ _ amt) => amt

/-- The sort key of `sortRobotsByPrice`: the pricing amount of the first
method matching the intent identifiers. -/
def priceKey (r : Robot) (identifiers : List (List Char)) : Option ℚ :=
  getPricingAmount (findMethodEntry r identifiers)

/-- The ascending-order preorder induced by the comparator of
`sortRobotsByPrice` (`commandRouter.js` 131-148): `priceLe x y` holds
exactly when the comparator returns ≤ 0 on `(x, y)`, i.e. missing prices
sort to the end and two missing prices tie. -/
def priceLe : Option ℚ → Option ℚ → Bool
  | none, none => true
  | none, some _ => false
  | some _, none => true
  | some a, some b => a ≤ b

/-- `sortRobotsByPrice(robots, identifiers, 'asc')`
(`commandRouter.js` 129-149).  ES2019 `Array.prototype.sort` is stable, and
the comparator is a consistent total preorder comparator, so its result is
the unique stable order — which insertion sort with the induced preorder
computes. -/
def sortRobotsByPrice (robots : List Robot) (identifiers : List (List Char)) :
    List Robot :=
  List.insertionSort
    (fun a b => priceLe (priceKey a identifiers) (priceKey b identifiers) = true)
    robots

/-! ### Pricing summary (`commandRouter.js` 115-127) -/

/-- `Number.prototype.toFixed(6)` followed by `parseFloat`, on exact
rationals: round to 6 decimal places, ties to the larger value (the ES
`toFixed` rule "if there are two such n, pick the larger n"). -/
def round6 (q : ℚ) : ℚ := (⌊q * 1000000 + 1 / 2⌋ : ℚ) / 1000000

/-- The pricing summary record `{baseAmount, markupPercent, suggestedPrice}`. -/
structure PricingSummary where
  baseAmount : ℚ
  markupPercent : ℚ
  suggestedPrice : ℚ
  deriving DecidableEq

/-- `summarisePricing` (`commandRouter.js` 115-127): `null` for a non-numeric
base amount, otherwise `suggestedPrice =
parseFloat((base * (1 + markup/100)).toFixed(6))`.  The JS float arithmetic
is modelled as exact rational arithmetic. -/
def summarisePricing (baseAmount : Option ℚ) (markupPercent : ℚ) :
    Option PricingSummary :=
  match baseAmount with
  | none => none
  | some parsed =>
    let multiplier := 1 + markupPercent / 100
    some ⟨parsed, markupPercent, round6 (parsed * multiplier)⟩

/-! ### Health monitor (`healthMonitor.js`) -/

/-- A geographic location as reported by an executor. -/
structure Location where
  lat : ℚ
  lng : ℚ
  deriving DecidableEq

/-- `isHealthMethod` (`healthMonitor.js` 29-35).  A bare string is tested
against the regex `^\/?health\/?$` (case-insensitive, after `trim()`), i.e.
only the exact forms `health`, `/health`, `health/`, `/health/`.  A
descriptor is tested on `(m?.path || m?.description || '')` lowercased:
equal to `health` or `/health`, or ending in `/health`. -/
def isHealthMethod (m : MethodEntry) : Bool :=
  match m with
  | .name s =>
    let t := lowerStr (trimChars s)
    t == "health".toList || t == "/health".toList
      || t == "health/".toList || t == "/health/".toList
  | .descriptor path description _ _ =>
    let p := lowerStr (if path.isEmpty then description else path)
    p == "health".toList || p == "/health".toList
      || endsWithChars p "/health".toList

/-- Spec-side predicate (from the spec's words, for claim C6): the string
matches the health-check pattern in exact-path or suffix form,
case-insensitively. -/
def specHealthPattern (s : List Char) : Bool :=
  let t := lowerStr s
  t == "health".toList || t == "/health".toList
    || endsWithChars t "/health".toList

/-- Spec-side predicate (from the spec's words, for claim C6): the entry's
path or description matches the health-check pattern. -/
def specEntryMatchesHealth (m : MethodEntry) : Bool :=
  match m with
  | .name s => specHealthPattern s
  | .descriptor path description _ _ =>
    specHealthPattern path || specHealthPattern description

/-- The fields of a health payload object that `normalizeHealthPayload`
reads.  `status`/`message` are `[]` when absent or falsy;
`availableMethods = none` models "not an array"; `location = none` models a
falsy/absent location (a present JS object is always truthy). -/
structure HealthFields where
  status : List Char
  message : List Char
  availableMethods : Option (List MethodEntry)
  location : Option Location
  deriving DecidableEq

/-- A raw health-check body: not an object at all, or an object with an
optional nested `data` object plus its own top-level fields. -/
inductive RawHealth where
  | notObject
  | obj (dataField : Option HealthFields) (top : HealthFields)
  deriving DecidableEq

/-- The normalised probe status record. -/
structure Status where
  state : List Char
  message : List Char
  availableMethods : List MethodEntry
  location : Option Location
  secure : Bool
  deriving DecidableEq

/-- `normalizeHealthPayload` (`healthMonitor.js` 4-47): unwrap the optional
`data` envelope, fall back field-wise to the top level, default the state to
`unknown` and the message to the fallback, and strip health-check entries
from `availableMethods`. -/
def normalizeHealthPayload (raw : RawHealth) (fallbackMessage : List Char)
    (secure : Bool) : Status :=
  let fallback := if fallbackMessage.isEmpty then "Responded".toList
    else fallbackMessage
  match raw with
  | .notObject => ⟨"unknown".toList, fallback, [], none, secure⟩
  | .obj dataField top =>
    let payload := dataField.getD top
    let state := if payload.status.isEmpty then
        (if top.status.isEmpty then "unknown".toList else top.status)
      else payload.status
    let message := if payload.message.isEmpty then
        (if top.message.isEmpty then fallback else top.message)
      else payload.message
    let rawMethods := match payload.availableMethods with
      | some ms => ms
      | none => match top.availableMethods with
        | some ms => ms
        | none => []
    let availableMethods := rawMethods.filter (fun m => !isHealthMethod m)
    let location := match payload.location with
      | some l => some l
      | none => top.location
    ⟨state, if message.isEmpty then fallback else message,
      availableMethods, location, secure⟩

/-- The identity/configuration of a probed executor that `probe` reads. -/
structure ProbeRobot where
  id : String
  requiresX402 : Bool
  deriving DecidableEq

/-- The parts of the configuration that `probe` reads, plus whether the
secured transport is configured (`x402Service.isConfigured()`). -/
structure ProbeConfig where
  defaultHealthEndpoint : List Char
  defaultSecureHealthEndpoint : List Char
  x402Configured : Bool
  deriving DecidableEq

/-- `buildHealthUrls` (`healthMonitor.js` 52-59), reduced to the endpoint
paths (the host/port base is common to all). -/
def probeUrls (cfg : ProbeConfig) : List (List Char) :=
  [cfg.defaultHealthEndpoint] ++
    (if cfg.defaultSecureHealthEndpoint ≠ cfg.defaultHealthEndpoint then
      [cfg.defaultSecureHealthEndpoint]
    else [])

/-- The `for (const url of urls)` loop of `probe` (`healthMonitor.js` 65-78):
return the first successful payload, else the last error, starting from the
inherited `lastError`. -/
def tryUrls (net : List Char → Except (List Char) RawHealth) :
    List (List Char) → Option (List Char) →
    Except (Option (List Char)) RawHealth
  | [], lastErr => .error lastErr
  | u :: rest, _lastErr =>
    match net u with
    | .ok payload => .ok payload
    | .error e => tryUrls net rest (some e)

/-- The unreachable status built at `healthMonitor.js` 95-103. -/
def unreachableStatus (lastErr : Option (List Char)) (robot : ProbeRobot) :
    Status :=
  ⟨"unreachable".toList, lastErr.getD "Health check failed".toList, [], none,
    robot.requiresX402⟩

/-- `probe` (`healthMonitor.js` 61-104).  `net` is the plain-transport
health GET per endpoint path; `netSecure` the secured request.  Every
failure is caught: the public endpoints are tried in order, then — when the
executor requires x402 and the secured transport is configured — the secured
endpoint, and if everything failed the probe returns an `unreachable`
status carrying the last failure message instead of throwing. -/
def probe (cfg : ProbeConfig) (robot : ProbeRobot)
    (net : List Char → Except (List Char) RawHealth)
    (netSecure : Except (List Char) RawHealth) : Status :=
  match tryUrls net (probeUrls cfg) none with
  | .ok payload => normalizeHealthPayload payload "Responded".toList false
  | .error lastErr =>
    if robot.requiresX402 && cfg.x402Configured then
      match netSecure with
      | .ok payload =>
        normalizeHealthPayload payload "Responded via x402".toList true
      | .error e => unreachableStatus (some e) robot
    else unreachableStatus lastErr robot

/-! ### Robot registry (`robotRegistry.js`)

The registry stores mutable JS objects in a `Map`; `Array.from(map.values())`
copies the array structure but its elements are the same object references.
To reason about this aliasing we model the heap explicitly: robot objects
live in `cells` (a store addressed by `Nat`), and both the registry's `Map`
(`table`, an insertion-ordered association of robot ids to addresses) and any
array handed to a caller hold addresses, i.e. references. -/

/-- The mutable state of one robot object, reduced to representative
caller-visible fields. -/
structure RobotRec where
  name : List Char
  state : List Char
  deriving DecidableEq

/-- The registry plus the heap of robot objects it points into. -/
structure RegistryHeap where
  cells : List RobotRec
  table : List (List Char × Nat)
  deriving DecidableEq

/-- Dereference an object reference. -/
def heapRead (h : RegistryHeap) (addr : Nat) : Option RobotRec :=
  h.cells.get? addr

/-- A caller mutating the object behind a reference it holds. -/
def heapWrite (h : RegistryHeap) (addr : Nat) (r : RobotRec) : RegistryHeap :=
  { h with cells := h.cells.set addr r }

/-- `list()` (`robotRegistry.js` 10-12): `Array.from(this.robots.values())` —
a fresh array whose elements are the map's object references. -/
def registryList (h : RegistryHeap) : List Nat :=
  h.table.map Prod.snd

/-- `getById` (`robotRegistry.js` 14-16): the map's object reference for the
id, or `null`. -/
def registryGetById (h : RegistryHeap) (robotId : List Char) : Option Nat :=
  (h.table.find? (fun p => p.1 == robotId)).map Prod.snd

/-- The record a caller observes through `getById` (reference dereferenced). -/
def lookupRobot (h : RegistryHeap) (robotId : List Char) : Option RobotRec :=
  (registryGetById h robotId).bind (heapRead h)

/-- The records a caller observes through `list()` (references dereferenced). -/
def listRecords (h : RegistryHeap) : List (Option RobotRec) :=
  (registryList h).map (heapRead h)

/-! ### `updateStatus` (`robotRegistry.js` 62-78) -/

/-- The status record stored on a registry robot: `{state, message,
availableMethods, secure}` (the location lives on the robot itself). -/
structure StoredStatus where
  state : List Char
  message : List Char
  availableMethods : List MethodEntry
  secure : Bool
  deriving DecidableEq

/-- A registered robot record as `robotRegistry.js` builds it. -/
structure RegRobot where
  id : String
  name : List Char
  host : List Char
  port : ℚ
  requiresX402 : Bool
  status : StoredStatus
  location : Option Location
  lastHealthCheckAt : Option (List Char)
  deriving DecidableEq

/-- `updateStatus` (`robotRegistry.js` 62-78), at the level of the looked-up
robot record: `robot.status` is replaced wholesale by `{state,
message || '', availableMethods || [], secure ?? false}` (in our model the
probe `Status` always carries a method list and a boolean, so the `|| []` and
`?? false` fallbacks are identities), `robot.location = status.location ||
robot.location`, and the probe timestamp is refreshed. -/
def updateStatus (robot : RegRobot) (st : Status) (now : List Char) :
    RegRobot :=
  { robot with
    status := ⟨st.state,
      (if st.message.isEmpty then [] else st.message),
      st.availableMethods,
      st.secure⟩,
    location := match st.location with
      | some l => some l
      | none => robot.location,
    lastHealthCheckAt := some now }

/-! ## Theorems -/

/-- Claim C7: for every known numeric base amount, the pricing summary's
`suggestedPrice` equals `baseAmount × (1 + markupPercent/100)` rounded to six
decimal places; in particular base 0.1 with markup 10 yields 0.11.  (The JS
float arithmetic is modelled as exact rational arithmetic.) -/
theorem summarisePricing_formula (q m : ℚ) :
    summarisePricing (some q) m = some ⟨q, m, round6 (q * (1 + m / 100))⟩ ∧
    summarisePricing (some (1 / 10)) 10 = some ⟨1 / 10, 10, 11 / 100⟩ := by
  refine ⟨rfl, ?_⟩
  simp only [summarisePricing, round6]
  norm_num

/-- Claim C10: a probe-driven status update replaces the status record
wholesale (it depends only on the probe result), leaves the identity fields
untouched, and preserves the previously recorded location whenever the probe
result carries no location — in particular for unreachable probe results,
whose location is always absent. -/
theorem updateStatus_frame (robot : RegRobot) (st : Status) (now : List Char) :
    (updateStatus robot st now).id = robot.id ∧
    (updateStatus robot st now).name = robot.name ∧
    (updateStatus robot st now).host = robot.host ∧
    (updateStatus robot st now).port = robot.port ∧
    (updateStatus robot st now).requiresX402 = robot.requiresX402 ∧
    (updateStatus robot st now).status
        = ⟨st.state, st.message, st.availableMethods, st.secure⟩ ∧
    (st.location = none →
      (updateStatus robot st now).location = robot.location) ∧
    (∀ e rb, (unreachableStatus e rb).location = none) ∧
    (∀ e rb now2,
      (updateStatus robot (unreachableStatus e rb) now2).location
        = robot.location) := by
  refine ⟨rfl, rfl, rfl, rfl, rfl, ?_, ?_, ?_, ?_⟩
  · simp only [updateStatus]
    cases hm : st.message <;> simp [hm]
  · intro h
    simp [updateStatus, h]
  · intro e rb
    simp [unreachableStatus]
  · intro e rb now2
    simp [updateStatus, unreachableStatus]

/-- Witness for `updateStatus_frame` at a concrete robot and probe status. -/
theorem updateStatus_frame_witness :
    (updateStatus
        ⟨"r1", "A".toList, "h".toList, 80, false,
          ⟨"ready".toList, [], [], false⟩, some ⟨1, 2⟩, none⟩
        ⟨"unreachable".toList, "down".toList, [], none, false⟩
        "t1".toList).location = some ⟨1, 2⟩ :=
  ((updateStatus_frame
      ⟨"r1", "A".toList, "h".toList, 80, false,
        ⟨"ready".toList, [], [], false⟩, some ⟨1, 2⟩, none⟩
      ⟨"unreachable".toList, "down".toList, [], none, false⟩
      "t1".toList).2.2.2.2.2.2.1 rfl).trans rfl

/-- A demo robot for concrete instantiations. -/
def demoRobot : Robot := ⟨"r1", []⟩

/-- An oracle whose initial unpaid request suffers a transport failure
(no response at all, no `stage` property on the error). -/
def cexTransportOracle : RobotOracle :=
  ⟨.error ⟨"socket hang up".toList, none⟩,
    .error ⟨[], none, none⟩,
    fun _ => .error ⟨[], none⟩⟩

/-- Counterexample to claim C3 as stated: when the unpaid initial request
suffers a transport failure, the per-executor outcome produced by the
`dance` fan-out loop is at stage `transport` (from `error.stage ||
'transport'` in the catch handler), not at stage `initial` — the
`if (!initialResponse)` branch that would produce stage `initial` is
unreachable because `driveCommand` throws instead of returning `null`. -/
theorem dance_initial_transport_stage_cex :
    (danceEntryFor 5 2000 demoRobot cexTransportOracle).stage = "transport" ∧
    ¬ (danceEntryFor 5 2000 demoRobot cexTransportOracle).stage = "initial" := by
  constructor
  · rfl
  · intro h
    simp [danceEntryFor, cexTransportOracle, executeMoveDemo] at h

/-- Claim C3 (amended): a transport failure of the unpaid initial request
makes `executeMoveDemo` stop after that single request (no retry, no
settlement, no confirmation attempt — the trace is exactly one initial
request), and the per-executor outcome is failed at stage `transport`. -/
theorem initial_transport_failure_not_retried (maxA : Nat) (delayMs : ℚ)
    (o : RobotOracle) (e : TransportError) (r : Robot)
    (hinit : o.initial = .error e) (hstage : e.stage = none) :
    executeMoveDemo maxA delayMs o = ([.initialRequest], .error e) ∧
    danceEntryFor maxA delayMs r o = ⟨r.id, "failed", "transport", 0⟩ := by
  constructor
  · simp [executeMoveDemo, hinit]
  · simp [danceEntryFor, executeMoveDemo, hinit, hstage]

/-- Witness for `initial_transport_failure_not_retried` at a concrete
oracle. -/
theorem initial_transport_failure_not_retried_witness :
    executeMoveDemo 5 2000 cexTransportOracle
        = ([.initialRequest], .error ⟨"socket hang up".toList, none⟩) ∧
    danceEntryFor 5 2000 demoRobot cexTransportOracle
        = ⟨"r1", "failed", "transport", 0⟩ :=
  initial_transport_failure_not_retried 5 2000 cexTransportOracle
    ⟨"socket hang up".toList, none⟩ demoRobot rfl rfl

/-- Claim C4: the `dance` fan-out processes the selected executors strictly
sequentially in selection order — the aggregated entries are exactly the
per-executor outcomes in selection order (so a transport error for one
executor is converted into a failed entry for that executor only and never
prevents the remaining executors from being attempted), and the event trace
is the concatenation of the per-executor traces in selection order (each
executor's full handshake completes before the next one starts). -/
theorem dance_sequential_in_selection_order (maxA : Nat) (delayMs : ℚ)
    (oracle : Robot → RobotOracle) (robots : List Robot) :
    (danceLoop maxA delayMs oracle robots).1
        = robots.map (fun r => danceEntryFor maxA delayMs r (oracle r)) ∧
    (danceLoop maxA delayMs oracle robots).2
        = (robots.map (fun r =>
            (executeMoveDemo maxA delayMs (oracle r)).1.map
              (fun ev => (r.id, ev)))).flatten ∧
    (danceLoop maxA delayMs oracle robots).1.map DanceEntry.robotId
        = robots.map Robot.id := by
  refine ⟨?_, ?_, ?_⟩
  · induction robots with
    | nil => rfl
    | cons r rest ih =>
      simp only [danceLoop, List.map_cons, ih, danceEntryFor]
  · induction robots with
    | nil => rfl
    | cons r rest ih =>
      simp only [danceLoop, List.map_cons, List.flatten_cons, ih]
  · induction robots with
    | nil => rfl
    | cons r rest ih =>
      simp only [danceLoop, List.map_cons, ih, List.cons.injEq, and_true]
      cases (executeMoveDemo maxA delayMs (oracle r)).2 <;> rfl

/-- The endpoint whose error message survives as `lastError` after the
public-path loop of `probe`: the last entry of `buildHealthUrls`. -/
def lastPublicUrl (cfg : ProbeConfig) : List Char :=
  if cfg.defaultSecureHealthEndpoint ≠ cfg.defaultHealthEndpoint then
    cfg.defaultSecureHealthEndpoint
  else cfg.defaultHealthEndpoint

/-- Claim C5: `probe` never throws — when every attempted health path fails
(every public path, and the secured path whenever it is attempted, i.e. when
the executor requires x402 and the secured transport is configured), the
probe returns a status with state `unreachable` carrying the last failure
message, rather than propagating the exception. -/
theorem probe_unreachable_on_total_failure (cfg : ProbeConfig)
    (robot : ProbeRobot) (net : List Char → Except (List Char) RawHealth)
    (err : List Char → List Char) (es : List Char)
    (hnet : ∀ u ∈ probeUrls cfg, net u = .error (err u)) :
    probe cfg robot net (.error es)
        = unreachableStatus
            (some (if robot.requiresX402 && cfg.x402Configured then es
              else err (lastPublicUrl cfg)))
            robot ∧
    (probe cfg robot net (.error es)).state = "unreachable".toList ∧
    (probe cfg robot net (.error es)).availableMethods = [] ∧
    (probe cfg robot net (.error es)).location = none := by
  have hurls : tryUrls net (probeUrls cfg) none
      = .error (some (err (lastPublicUrl cfg))) := by
    have h1 : net cfg.defaultHealthEndpoint
        = .error (err cfg.defaultHealthEndpoint) :=
      hnet _ (by simp [probeUrls])
    by_cases hne : cfg.defaultSecureHealthEndpoint = cfg.defaultHealthEndpoint
    · simp [probeUrls, lastPublicUrl, hne, tryUrls, h1]
    · have h2 : net cfg.defaultSecureHealthEndpoint
          = .error (err cfg.defaultSecureHealthEndpoint) :=
        hnet _ (by simp [probeUrls, hne])
      simp [probeUrls, lastPublicUrl, hne, tryUrls, h1, h2]
  have hmain : probe cfg robot net (.error es)
      = unreachableStatus
          (some (if robot.requiresX402 && cfg.x402Configured then es
            else err (lastPublicUrl cfg)))
          robot := by
    rw [probe, hurls]
    by_cases hsec : robot.requiresX402 && cfg.x402Configured
    · simp [hsec]
    · simp [hsec]
  exact ⟨hmain, by rw [hmain]; rfl, by rw [hmain]; rfl, by rw [hmain]; rfl⟩

/-- Witness for `probe_unreachable_on_total_failure` at a concrete
configuration where both public paths and the secured path fail. -/
theorem probe_unreachable_on_total_failure_witness :
    probe ⟨"/health".toList, "/x402/health".toList, true⟩ ⟨"r1", true⟩
        (fun _ => .error "ECONNREFUSED".toList) (.error "x402 down".toList)
      = unreachableStatus (some "x402 down".toList) ⟨"r1", true⟩ ∧
    (probe ⟨"/health".toList, "/x402/health".toList, true⟩ ⟨"r1", true⟩
        (fun _ => .error "ECONNREFUSED".toList)
        (.error "x402 down".toList)).state = "unreachable".toList ∧
    (probe ⟨"/health".toList, "/x402/health".toList, true⟩ ⟨"r1", true⟩
        (fun _ => .error "ECONNREFUSED".toList)
        (.error "x402 down".toList)).availableMethods = [] ∧
    (probe ⟨"/health".toList, "/x402/health".toList, true⟩ ⟨"r1", true⟩
        (fun _ => .error "ECONNREFUSED".toList)
        (.error "x402 down".toList)).location = none :=
  probe_unreachable_on_total_failure
    ⟨"/health".toList, "/x402/health".toList, true⟩ ⟨"r1", true⟩
    (fun _ => .error "ECONNREFUSED".toList)
    (fun _ => "ECONNREFUSED".toList) "x402 down".toList
    (fun _ _ => rfl)

/-- A health payload advertising a bare-string method `/api/health`. -/
def healthRawCex : RawHealth :=
  .obj none ⟨[], [], some [.name "/api/health".toList], none⟩

/-- Counterexample to claim C6 as stated: the bare-string entry
`/api/health` matches the health-check pattern in suffix form, yet it
survives normalization, because the bare-string filter regex
`^\/?health\/?$` only matches the exact forms and never suffix forms. -/
theorem availableMethods_health_cex :
    (normalizeHealthPayload healthRawCex [] false).availableMethods
        = [.name "/api/health".toList] ∧
    specEntryMatchesHealth (.name "/api/health".toList) = true := by
  constructor
  · rfl
  · rfl

/-- Claim C6 (amended): `availableMethods` never contains an entry matching
the filter that the code actually applies — for bare strings only the exact
forms `health`, `/health`, `health/`, `/health/` (trimmed,
case-insensitively); for descriptors the path (or, when the path is empty,
the description) equal to `health` or `/health` or ending in `/health`,
case-insensitively.  Bare strings in suffix form, and descriptors whose
description matches while a non-matching path is present, are kept. -/
theorem availableMethods_no_filtered_entries (raw : RawHealth)
    (fallback : List Char) (secure : Bool) (m : MethodEntry)
    (hm : m ∈ (normalizeHealthPayload raw fallback secure).availableMethods) :
    isHealthMethod m = false := by
  cases raw with
  | notObject =>
    simp [normalizeHealthPayload] at hm
  | obj dataField top =>
    simp only [normalizeHealthPayload] at hm
    have := (List.mem_filter.mp hm).2
    simpa using this

/-- Witness for `availableMethods_no_filtered_entries`: the surviving entry
of the counterexample payload is indeed not one the code's filter matches. -/
theorem availableMethods_no_filtered_entries_witness :
    isHealthMethod (.name "/api/health".toList) = false :=
  availableMethods_no_filtered_entries healthRawCex [] false
    (.name "/api/health".toList) (by decide)

/-- A one-robot registry heap: the robot object `Robot-A` lives at address
0, and the map binds id `r1` to that object. -/
def demoHeap : RegistryHeap :=
  ⟨[⟨"Robot-A".toList, "ready".toList⟩], [("r1".toList, 0)]⟩

/-- Counterexample to claim C9 as stated: `list()` hands out the registry's
own object references, not value copies — a caller that mutates the first
element returned by `list()` changes what a subsequent `getById` (and
`list`) observes for that robot. -/
theorem registryList_not_snapshot_cex :
    lookupRobot demoHeap "r1".toList
        = some ⟨"Robot-A".toList, "ready".toList⟩ ∧
    lookupRobot
        (heapWrite demoHeap ((registryList demoHeap).headD 0)
          ⟨"EVIL".toList, "ready".toList⟩)
        "r1".toList
      = some ⟨"EVIL".toList, "ready".toList⟩ ∧
    lookupRobot
        (heapWrite demoHeap ((registryList demoHeap).headD 0)
          ⟨"EVIL".toList, "ready".toList⟩)
        "r1".toList
      ≠ lookupRobot demoHeap "r1".toList := by
  refine ⟨rfl, rfl, ?_⟩
  intro h
  simp [demoHeap, lookupRobot, registryGetById, registryList, heapWrite,
    heapRead] at h

/-- Claim C9 (amended): `list()` returns a fresh array, but its elements are
references to the registry's own robot records, not copies: every reference
`getById` yields is among those `list()` returns, and a caller writing
through such a reference changes what a subsequent `getById` observes. -/
theorem registryList_aliases_registry (h : RegistryHeap)
    (robotId : List Char) (addr : Nat) (r : RobotRec)
    (hget : registryGetById h robotId = some addr)
    (hlt : addr < h.cells.length) :
    addr ∈ registryList h ∧
    lookupRobot (heapWrite h addr r) robotId = some r := by
  obtain ⟨p, hfind, hsnd⟩ := Option.map_eq_some'.mp hget
  constructor
  · exact hsnd ▸ List.mem_map_of_mem Prod.snd (List.mem_of_find?_eq_some hfind)
  · have hget' : registryGetById (heapWrite h addr r) robotId = some addr := hget
    unfold lookupRobot
    rw [hget', Option.some_bind]
    unfold heapRead heapWrite
    rw [List.get?_eq_getElem?]
    exact List.getElem?_set_eq_of_lt r hlt

/-- Witness for `registryList_aliases_registry` on the demo heap. -/
theorem registryList_aliases_registry_witness :
    (0 : Nat) ∈ registryList demoHeap ∧
    lookupRobot (heapWrite demoHeap 0 ⟨"EVIL".toList, "ready".toList⟩)
        "r1".toList
      = some ⟨"EVIL".toList, "ready".toList⟩ :=
  registryList_aliases_registry demoHeap "r1".toList 0
    ⟨"EVIL".toList, "ready".toList⟩ rfl (by simp [demoHeap])

/-! ### Stability of the price sort -/

/-- `priceLe` is total. -/
theorem priceLe_total (x y : Option ℚ) :
    priceLe x y = true ∨ priceLe y x = true := by
  cases x <;> cases y <;> simp [priceLe]
  exact le_total _ _

/-- `priceLe` is transitive. -/
theorem priceLe_trans {x y z : Option ℚ} (h1 : priceLe x y = true)
    (h2 : priceLe y z = true) : priceLe x z = true := by
  cases x <;> cases y <;> cases z <;> simp [priceLe] at * <;>
    exact le_trans h1 h2

/-- `priceLe` is reflexive. -/
theorem priceLe_refl (x : Option ℚ) : priceLe x x = true := by
  cases x <;> simp [priceLe]

/-- Inserting an element all of whose `p`-mates it ties with (so it goes
before every one of them) prepends it to the `p`-filtered view. -/
theorem filter_orderedInsert_pos {α : Type} (r : α → α → Prop)
    [DecidableRel r] (p : α → Bool) (x : α) (hp : p x = true)
    (hcomp : ∀ b, p b = true → r x b) :
    ∀ l : List α, (List.orderedInsert r x l).filter p = x :: l.filter p
  | [] => by simp [List.orderedInsert, hp]
  | b :: t => by
    by_cases hrb : r x b
    · simp [List.orderedInsert, hrb, hp]
    · have hpb : p b = false := by
        rcases Bool.eq_false_or_eq_true (p b) with hb | hb
        · exact absurd (hcomp b hb) hrb
        · exact hb
      simp [List.orderedInsert, hrb, hpb, List.filter_cons,
        filter_orderedInsert_pos r p x hp hcomp t]

/-- Inserting an element outside `p` leaves the `p`-filtered view alone. -/
theorem filter_orderedInsert_neg {α : Type} (r : α → α → Prop)
    [DecidableRel r] (p : α → Bool) (x : α) (hp : p x = false) :
    ∀ l : List α, (List.orderedInsert r x l).filter p = l.filter p
  | [] => by simp [List.orderedInsert, hp]
  | b :: t => by
    by_cases hrb : r x b
    · simp [List.orderedInsert, hrb, hp]
    · simp [List.orderedInsert, hrb, List.filter_cons,
        filter_orderedInsert_neg r p x hp t]

/-- Stability of insertion sort: when all members of `p` tie with one
another, sorting preserves the `p`-filtered view verbatim. -/
theorem filter_insertionSort {α : Type} (r : α → α → Prop)
    [DecidableRel r] (p : α → Bool)
    (hties : ∀ a b, p a = true → p b = true → r a b) :
    ∀ l : List α, (List.insertionSort r l).filter p = l.filter p
  | [] => rfl
  | x :: t => by
    by_cases hx : p x
    · rw [List.insertionSort,
        filter_orderedInsert_pos r p x hx (fun b hb => hties x b hx hb),
        filter_insertionSort r p hties t]
      simp [List.filter_cons, hx]
    · rw [List.insertionSort,
        filter_orderedInsert_neg r p x (by simpa using hx),
        filter_insertionSort r p hties t]
      simp [List.filter_cons, hx]

/-- `DANCE_METHOD_IDENTIFIERS` (`commandRouter.js` line 5). -/
def danceMethodIdentifiers : List (List Char) :=
  ["/api/v1/robot/move_demo".toList, "/commands/dance".toList,
    "move_demo".toList]

/-- Three ready executors priced 0.2, 0.1, 0.3 for the dance intent. -/
def demoPricedRobots : List Robot :=
  [⟨"e1", [.descriptor "/commands/dance".toList [] [] (some (2 / 10))]⟩,
    ⟨"e2", [.descriptor "/commands/dance".toList [] [] (some (1 / 10))]⟩,
    ⟨"e3", [.descriptor "/commands/dance".toList [] [] (some (3 / 10))]⟩]

/-- Claim C8: `lowest_price` selection stable-sorts the ready executors by
the pricing amount of the first method matching the intent identifiers:
the output is sorted by `priceLe` (so executors with no matching price sort
to the end — fourth conjunct), it is a permutation of the input, every
price-class keeps its original relative order (stability), and over
executors priced 0.2 / 0.1 / 0.3 the 0.1-priced executor comes first. -/
theorem lowest_price_sort_spec (robots : List Robot)
    (ids : List (List Char)) :
    List.Sorted
        (fun a b => priceLe (priceKey a ids) (priceKey b ids) = true)
        (sortRobotsByPrice robots ids) ∧
    (sortRobotsByPrice robots ids).Perm robots ∧
    (∀ k : Option ℚ,
      (sortRobotsByPrice robots ids).filter (fun rb => priceKey rb ids == k)
        = robots.filter (fun rb => priceKey rb ids == k)) ∧
    List.Pairwise (fun a b => priceKey a ids = none → priceKey b ids = none)
        (sortRobotsByPrice robots ids) ∧
    (sortRobotsByPrice demoPricedRobots danceMethodIdentifiers).map Robot.id
        = ["e2", "e1", "e3"] := by
  haveI htot : IsTotal Robot
      (fun a b => priceLe (priceKey a ids) (priceKey b ids) = true) :=
    ⟨fun a b => priceLe_total _ _⟩
  haveI htrans : IsTrans Robot
      (fun a b => priceLe (priceKey a ids) (priceKey b ids) = true) :=
    ⟨fun _ _ _ h1 h2 => priceLe_trans h1 h2⟩
  have hsorted := List.sorted_insertionSort
    (fun a b => priceLe (priceKey a ids) (priceKey b ids) = true) robots
  refine ⟨hsorted, ?_, ?_, ?_, ?_⟩
  · exact List.perm_insertionSort _ robots
  · intro k
    exact filter_insertionSort _ _
      (fun a b ha hb => by
        rw [eq_of_beq ha, eq_of_beq hb]
        exact priceLe_refl k)
      robots
  · exact hsorted.imp (fun {a b} hab ha => by
      cases hk : priceKey b ids with
      | none => rfl
      | some v => rw [ha, hk] at hab; exact absurd hab (by simp [priceLe]))
  · have k1 : priceKey
        ⟨"e1", [.descriptor "/commands/dance".toList [] [] (some (2 / 10))]⟩
        danceMethodIdentifiers = some (2 / 10) := rfl
    have k2 : priceKey
        ⟨"e2", [.descriptor "/commands/dance".toList [] [] (some (1 / 10))]⟩
        danceMethodIdentifiers = some (1 / 10) := rfl
    have k3 : priceKey
        ⟨"e3", [.descriptor "/commands/dance".toList [] [] (some (3 / 10))]⟩
        danceMethodIdentifiers = some (3 / 10) := rfl
    have t12 : priceLe (some ((2 : ℚ) / 10)) (some (1 / 10)) = false := by
      simp only [priceLe, decide_eq_false_iff_not]
      norm_num
    have t23 : priceLe (some ((1 : ℚ) / 10)) (some (3 / 10)) = true := by
      simp only [priceLe, decide_eq_true_eq]
      norm_num
    have t13 : priceLe (some ((2 : ℚ) / 10)) (some (3 / 10)) = true := by
      simp only [priceLe, decide_eq_true_eq]
      norm_num
    show (List.insertionSort _ demoPricedRobots).map Robot.id
        = ["e2", "e1", "e3"]
    simp only [demoPricedRobots, List.insertionSort, List.orderedInsert,
      k1, k2, k3, t12, t23, t13, if_true, if_false, List.map_cons,
      List.map_nil]
    rfl

/-- Witness for `lowest_price_sort_spec`: the concrete 0.2/0.1/0.3 instance
returns the 0.1-priced executor first. -/
theorem lowest_price_sort_spec_witness :
    (sortRobotsByPrice demoPricedRobots danceMethodIdentifiers).map Robot.id
        = ["e2", "e1", "e3"] :=
  (lowest_price_sort_spec demoPricedRobots danceMethodIdentifiers).2.2.2.2

/-- A truthy JS value is not `undefined`. -/
theorem truthy_ne_undef {v : JVal} (h : v.truthy = true) : ¬ v = JVal.undef := by
  cases v <;> simp_all [JVal.truthy]

/-- A non-nullish JS value is not `undefined`. -/
theorem notNullish_ne_undef {v : JVal} (h : v.isNullish = false) :
    ¬ v = JVal.undef := by
  cases v <;> simp_all [JVal.isNullish]

/-- `receiver || payTo` is truthy exactly when one of the two is. -/
theorem receiverOrPayTo_truthy (receiver payTo : JVal) :
    (if receiver.truthy then receiver else payTo).truthy
      = (receiver.truthy || payTo.truthy) := by
  by_cases h : receiver.truthy = true <;> simp [h]

/-- Every invoice the parser produces has all four fields present: truthy
reference, receiver and asset, non-nullish amount. -/
theorem parse402_some_fields (body : Body402) (inv : Invoice)
    (h : parse402PaymentRequest body = some inv) :
    inv.reference.truthy = true ∧ inv.receiver.truthy = true ∧
    inv.amount.isNullish = false ∧ inv.asset.truthy = true := by
  cases body with
  | notObject => simp [parse402PaymentRequest] at h
  | obj ver accepts reference receiver payTo amount asset =>
    simp only [parse402PaymentRequest] at h
    split at h
    next i heq =>
      rw [Option.some.injEq] at h
      subst h
      split at heq
      · split at heq
        next a tail =>
          split at heq
          next hfields =>
            rw [Option.some.injEq] at heq
            subst heq
            simp only [Bool.and_eq_true] at hfields
            exact ⟨hfields.1.1.1, hfields.1.1.2, by simpa using hfields.1.2,
              hfields.2⟩
          next => exact absurd heq (by simp)
        next => exact absurd heq (by simp)
      · exact absurd heq (by simp)
    next heq =>
      split at h
      all_goals
        split at h
      case _ hleg =>
        rw [Option.some.injEq] at h
        subst h
        simp only [Bool.and_eq_true] at hleg
        exact ⟨hleg.1.1.1, hleg.1.1.2, by simpa using hleg.1.2, hleg.2⟩
      case _ => exact absurd h (by simp)
      case _ hleg =>
        rw [Option.some.injEq] at h
        subst h
        simp only [Bool.and_eq_true] at hleg
        exact ⟨hleg.1.1.1, hleg.1.1.2, by simpa using hleg.1.2, hleg.2⟩
      case _ => exact absurd h (by simp)

/-- Claim C2: an invoice is produced exactly when the body matches one of
the two supported wire shapes with all four values present; whenever an
invoice is produced, dispatch proceeds to settlement with exactly that
invoice (whose four fields are all present and non-null), and whenever no
invoice is produced, the attempt fails terminally at stage
`payment_initiation` and settlement is never attempted. -/
theorem parse402_iff_complete (body : Body402) :
    ((parse402PaymentRequest body).isSome
        ↔ (v2Complete body || legacyComplete body) = true) ∧
    (∀ inv, parse402PaymentRequest body = some inv →
      handle402 body = .settle inv ∧
      inv.reference.truthy = true ∧ inv.receiver.truthy = true ∧
      inv.amount.isNullish = false ∧ inv.asset.truthy = true) ∧
    (parse402PaymentRequest body = none →
      handle402 body = .failInitiation) := by
  refine ⟨?_, ?_, ?_⟩
  · cases body with
    | notObject => simp [parse402PaymentRequest, v2Complete, legacyComplete]
    | obj ver accepts reference receiver payTo amount asset =>
      simp only [parse402PaymentRequest, v2Complete, legacyComplete]
      by_cases hv : ver = JVal.jnum 2
      · cases accepts with
        | none => simp [hv, receiverOrPayTo_truthy]
        | some l =>
          cases l with
          | nil => simp [hv, receiverOrPayTo_truthy]
          | cons a rest =>
            by_cases hfields : (a.extraReference.truthy && a.payTo.truthy
                && !a.amount.isNullish && a.asset.truthy) = true
            · simp [hv, hfields]
            · simp [hv, hfields, receiverOrPayTo_truthy]
      · cases accepts <;> simp [hv, receiverOrPayTo_truthy]
  · intro inv h
    obtain ⟨hr, hc, ha, hs⟩ := parse402_some_fields body inv h
    refine ⟨?_, hr, hc, ha, hs⟩
    cases inv with
    | mk reference receiver amount asset =>
      simp only at hr hc ha hs
      simp [handle402, h, Option.elim, hr, hc, truthy_ne_undef hs,
        notNullish_ne_undef ha]
  · intro h
    simp [handle402, h, Option.elim, JVal.truthy]

/-- Witness for `parse402_iff_complete` at a concrete complete legacy body
and at the parsed invoice it yields. -/
theorem parse402_iff_complete_witness :
    handle402 (.obj .undef none (.jstr "ref".toList) (.jstr "recv".toList)
        .undef (.jnum 1) (.jstr "SOL".toList))
      = .settle ⟨.jstr "ref".toList, .jstr "recv".toList, .jnum 1,
          .jstr "SOL".toList⟩ :=
  ((parse402_iff_complete
      (.obj .undef none (.jstr "ref".toList) (.jstr "recv".toList)
        .undef (.jnum 1) (.jstr "SOL".toList))).2.1
    ⟨.jstr "ref".toList, .jstr "recv".toList, .jnum 1, .jstr "SOL".toList⟩
    (by decide)).1

/-- The attempt ceiling normalisation never yields 0. -/
theorem one_le_normaliseConfirmMaxAttempts (cfg : Option Int) :
    1 ≤ normaliseConfirmMaxAttempts cfg := by
  cases cfg with
  | none => simp [normaliseConfirmMaxAttempts]
  | some n => simp [normaliseConfirmMaxAttempts]

/-- Invariant of the confirmation loop when every confirmation request gets
a response (`next i = .ok (resp i)`): starting from attempt counter `a` with
`fuel = maxA - a ≥ 1` loop iterations allowed, the loop ends in an `ok`
state whose attempt counter lies in `(a, maxA]`, whose final response is the
response of its last attempt, with every earlier attempt in the run having
returned 402, stopping before the ceiling only on a non-402 response, and
delaying exactly once per retry. -/
theorem confirmLoopGo_ok (maxA : Nat) (delayMs : ℚ)
    (resp : Nat → HttpResponse)
    (next : Nat → Except TransportError HttpResponse)
    (hnext : ∀ i, next i = .ok (resp i)) :
    ∀ (fuel a : Nat) (fr : Option HttpResponse), a + fuel = maxA → 1 ≤ fuel →
    ∃ (evs : List Event) (c : ConfirmOut),
      confirmLoopGo maxA delayMs next fuel a fr = (evs, .ok c) ∧
      a + 1 ≤ c.attempts ∧ c.attempts ≤ maxA ∧
      c.finalResponse = some (resp c.attempts) ∧
      (∀ i, a + 1 ≤ i → i < c.attempts → (resp i).status = 402) ∧
      ((resp c.attempts).status = 402 → c.attempts = maxA) ∧
      evs.count (Event.delayWait delayMs) = c.attempts - a - 1 := by
  intro fuel
  induction fuel with
  | zero => intro a fr hsum hfuel; omega
  | succ k ih =>
    intro a fr hsum _
    by_cases h200 : (resp (a + 1)).status = 200
    · refine ⟨[.confirmRequest (a + 1)], ⟨a + 1, some (resp (a + 1))⟩,
        ?_, by dsimp only; omega, by dsimp only; omega, rfl, ?_, ?_, ?_⟩
      · simp [confirmLoopGo, hnext, h200]
      · intro i hi1 hi2; dsimp only at hi2; omega
      · intro h402; dsimp only at h402; rw [h200] at h402; omega
      · dsimp only; simp
    · by_cases h402 : (resp (a + 1)).status = 402
      · by_cases hlt : a + 1 < maxA
        · obtain ⟨evs, c, heq, h1, h2, h3, h4, h5, h6⟩ :=
            ih (a + 1) (some (resp (a + 1))) (by omega) (by omega)
          refine ⟨.confirmRequest (a + 1) :: .delayWait delayMs :: evs, c,
            ?_, by omega, h2, h3, ?_, h5, ?_⟩
          · simp [confirmLoopGo, hnext, h200, h402, hlt, heq]
          · intro i hi1 hi2
            rcases Nat.eq_or_lt_of_le hi1 with hi | hi
            · rw [← hi]; exact h402
            · exact h4 i hi hi2
          · simp only [List.count_cons, h6]
            have hb1 : (Event.delayWait delayMs == Event.delayWait delayMs)
                = true := by simp
            have hb2 : (Event.confirmRequest (a + 1)
                == Event.delayWait delayMs) = false := by rfl
            rw [hb2, hb1]
            simp
            omega
        · refine ⟨[.confirmRequest (a + 1)], ⟨a + 1, some (resp (a + 1))⟩,
            ?_, by dsimp only; omega, by dsimp only; omega, rfl, ?_, ?_, ?_⟩
          · simp [confirmLoopGo, hnext, h200, h402, hlt]
          · intro i hi1 hi2; dsimp only at hi2; omega
          · intro _; dsimp only; omega
          · dsimp only; simp
      · refine ⟨[.confirmRequest (a + 1)], ⟨a + 1, some (resp (a + 1))⟩,
          ?_, by dsimp only; omega, by dsimp only; omega, rfl, ?_, ?_, ?_⟩
        · simp [confirmLoopGo, hnext, h200, h402]
        · intro i hi1 hi2; dsimp only at hi2; omega
        · intro hx; dsimp only at hx; exact absurd hx h402
        · dsimp only; simp

/-- Claim C1: for every dispatch that reaches the confirmation phase (the
initial request returned 402, its body parsed, settlement succeeded) and
whose confirmation requests all receive responses, the confirmation loop
performs between 1 and the configured maximum number of attempts, stops at
the first non-402 response (every earlier attempt saw 402, and stopping
before the ceiling implies the last response was not 402), classifies a
final 200 as success at stage `payment_confirmed` and any other non-402
final status as failure at stage `payment_confirmation`, retains the last
observed response, and delays exactly once per repeated-402 retry. -/
theorem confirmation_loop_spec (cfgMax : Option Int) (delayMs : ℚ)
    (o : RobotOracle) (resp : Nat → HttpResponse) (ir : HttpResponse)
    (inv : Invoice) (stl : Settlement)
    (hinit : o.initial = .ok ir) (h402 : ir.status = 402)
    (hparse : handle402 ir.data = .settle inv)
    (hsettle : o.settlement = .ok stl)
    (hconf : ∀ i, o.confirm i = .ok (resp i)) :
    ∃ c : ConfirmOut,
      (executeMoveDemo (normaliseConfirmMaxAttempts cfgMax) delayMs o).2
          = .ok (finishConfirm inv stl c) ∧
      1 ≤ c.attempts ∧
      c.attempts ≤ normaliseConfirmMaxAttempts cfgMax ∧
      c.finalResponse = some (resp c.attempts) ∧
      (∀ i, 1 ≤ i → i < c.attempts → (resp i).status = 402) ∧
      ((resp c.attempts).status = 402 →
        c.attempts = normaliseConfirmMaxAttempts cfgMax) ∧
      ((resp c.attempts).status = 200 →
        (finishConfirm inv stl c).status = "success" ∧
        (finishConfirm inv stl c).stage = "payment_confirmed") ∧
      ((resp c.attempts).status ≠ 200 →
        (finishConfirm inv stl c).status = "failed" ∧
        (finishConfirm inv stl c).stage = "payment_confirmation" ∧
        (finishConfirm inv stl c).response = some (resp c.attempts).data) ∧
      (finishConfirm inv stl c).attempts = c.attempts ∧
      (executeMoveDemo (normaliseConfirmMaxAttempts cfgMax) delayMs o).1.count
          (Event.delayWait delayMs) = c.attempts - 1 := by
  obtain ⟨evs, c, heq, h1, h2, h3, h4, h5, h6⟩ :=
    confirmLoopGo_ok (normaliseConfirmMaxAttempts cfgMax) delayMs resp
      o.confirm hconf (normaliseConfirmMaxAttempts cfgMax) 0 none (by omega)
      (one_le_normaliseConfirmMaxAttempts cfgMax)
  have hexec : executeMoveDemo (normaliseConfirmMaxAttempts cfgMax) delayMs o
      = (Event.initialRequest :: Event.settleCall inv :: evs,
          .ok (finishConfirm inv stl c)) := by
    simp only [executeMoveDemo, hinit, h402, hparse, hsettle, confirmLoop,
      heq]
    norm_num [Except.map]
  refine ⟨c, ?_, by omega, h2, h3, fun i hi1 hi2 => h4 i hi1 hi2, h5,
    ?_, ?_, ?_, ?_⟩
  · rw [hexec]
  · intro hs
    simp [finishConfirm, h3, hs]
  · intro hs
    simp [finishConfirm, h3, hs]
  · simp only [finishConfirm, h3]
    split_ifs <;> rfl
  · rw [hexec]
    simp only [List.count_cons]
    have hb1 : (Event.initialRequest == Event.delayWait delayMs) = false := by
      rfl
    have hb2 : (Event.settleCall inv == Event.delayWait delayMs) = false := by
      rfl
    rw [hb1, hb2]
    simp
    omega

/-- A concrete complete legacy 402 body for the C1 witness. -/
def demo402Body : Body402 :=
  .obj .undef none (.jstr "ref".toList) (.jstr "recv".toList) .undef
    (.jnum 1) (.jstr "SOL".toList)

/-- The invoice `demo402Body` parses to. -/
def demoInvoice : Invoice :=
  ⟨.jstr "ref".toList, .jstr "recv".toList, .jnum 1, .jstr "SOL".toList⟩

/-- Confirmation responses for the C1 witness: attempt 1 sees 402 again,
attempt 2 sees 200. -/
def demoConfirmResp : Nat → HttpResponse :=
  fun i => if i = 1 then ⟨402, .notObject⟩ else ⟨200, .notObject⟩

/-- The C1 witness oracle: initial 402 with a parseable body, successful
settlement, then `demoConfirmResp`. -/
def demoConfirmOracle : RobotOracle :=
  ⟨.ok ⟨402, demo402Body⟩, .ok ⟨"sig".toList⟩,
    fun i => .ok (demoConfirmResp i)⟩

/-- Witness for `confirmation_loop_spec` at a concrete oracle whose first
confirmation attempt returns 402 and whose second returns 200. -/
theorem confirmation_loop_spec_witness :
    ∃ c : ConfirmOut,
      (executeMoveDemo (normaliseConfirmMaxAttempts (some 5)) 2000
          demoConfirmOracle).2
          = .ok (finishConfirm demoInvoice ⟨"sig".toList⟩ c) ∧
      1 ≤ c.attempts ∧
      c.attempts ≤ normaliseConfirmMaxAttempts (some 5) ∧
      c.finalResponse = some (demoConfirmResp c.attempts) ∧
      (∀ i, 1 ≤ i → i < c.attempts → (demoConfirmResp i).status = 402) ∧
      ((demoConfirmResp c.attempts).status = 402 →
        c.attempts = normaliseConfirmMaxAttempts (some 5)) ∧
      ((demoConfirmResp c.attempts).status = 200 →
        (finishConfirm demoInvoice ⟨"sig".toList⟩ c).status = "success" ∧
        (finishConfirm demoInvoice ⟨"sig".toList⟩ c).stage
          = "payment_confirmed") ∧
      ((demoConfirmResp c.attempts).status ≠ 200 →
        (finishConfirm demoInvoice ⟨"sig".toList⟩ c).status = "failed" ∧
        (finishConfirm demoInvoice ⟨"sig".toList⟩ c).stage
          = "payment_confirmation" ∧
        (finishConfirm demoInvoice ⟨"sig".toList⟩ c).response
          = some (demoConfirmResp c.attempts).data) ∧
      (finishConfirm demoInvoice ⟨"sig".toList⟩ c).attempts = c.attempts ∧
      (executeMoveDemo (normaliseConfirmMaxAttempts (some 5)) 2000
          demoConfirmOracle).1.count (Event.delayWait 2000)
        = c.attempts - 1 :=
  confirmation_loop_spec (some 5) 2000 demoConfirmOracle demoConfirmResp
    ⟨402, demo402Body⟩ demoInvoice ⟨"sig".toList⟩ rfl rfl (by decide) rfl
    (fun _ => rfl)

end TaskRouter
